import Mathlib

/-!
Verification development for the playwright-posthog event-capture-and-matching
engine.  The definitions below are a shallow embedding of the library's
TypeScript source:

* `hog-watcher.ts` — `matchesProperties`, `deepEqual`, `normalizeEvent`,
  `extractEventsFromRequest`;
* `fixtures.ts` — the per-page event log (`kHogEvents` storage, `getCapturedEvents`,
  `clearCapturedEvents`, the route handler's `push`);
* `matchers.ts` — `toHaveFiredEvent`, `notToHaveFiredEvent`, `toHaveCapturedEvents`
  and their diagnostic messages.

JavaScript values are embedded as the inductive type `JValue` (finite trees).
JS numbers are modelled as integers (the library never does arithmetic on them;
they are only compared), strings as Lean strings.  Object property order is the
entry-list order; JS guarantees object keys are unique, which the embedding does
not enforce at the type level but respects in all concrete inputs.
-/

/-- Embedding of a JavaScript value as it appears in PostHog payloads and test
expectations: `null`, `undefined`, booleans, numbers (as integers), strings,
arrays and plain objects (ordered field lists). -/
inductive JValue where
  | null
  | undefined
  | bool (b : Bool)
  | num (n : Int)
  | str (s : String)
  | arr (elems : List JValue)
  | obj (fields : List (String × JValue))

/-- JavaScript truthiness: `null`, `undefined`, `false`, `0` and `""` are falsy;
every object and array (including `{}` and `[]`) is truthy. -/
def truthy : JValue → Bool
  | .null => false
  | .undefined => false
  | .bool b => b
  | .num n => n != 0
  | .str s => s != ""
  | .arr _ => true
  | .obj _ => true

/-- JavaScript `typeof`.  Note `typeof null === "object"`. -/
def typeOf : JValue → String
  | .null => "object"
  | .undefined => "undefined"
  | .bool _ => "boolean"
  | .num _ => "number"
  | .str _ => "string"
  | .arr _ => "object"
  | .obj _ => "object"

/-- JavaScript strict equality `===` between the two operands of `deepEqual` and
between an event-name field and the queried event name.  Primitives compare by
value.  Objects and arrays compare by reference; the tree embedding takes the
two operands to be distinct references (the capture path compares a freshly
JSON-parsed tree against an independently built expectation, so no aliasing
arises), hence `false` on the composite cases. -/
def jsStrictEq : JValue → JValue → Bool
  | .null, .null => true
  | .undefined, .undefined => true
  | .bool x, .bool y => x == y
  | .num x, .num y => x == y
  | .str x, .str y => x == y
  | _, _ => false

/-- JavaScript loose test `x == null`, true exactly for `null` and `undefined`. -/
def isNullish : JValue → Bool
  | .null => true
  | .undefined => true
  | _ => false

/-- First value stored under a key in an object's field list, if any. -/
def firstVal : List (String × JValue) → String → Option JValue
  | [], _ => none
  | (k, v) :: rest, key => if k == key then some v else firstVal rest key

/-- Property read on an object field list: a missing key reads as `undefined`,
exactly as `obj[key]` does in JavaScript. -/
def jlookup (fields : List (String × JValue)) (key : String) : JValue :=
  (firstVal fields key).getD .undefined

/-- JavaScript property access `base[key]` for non-nullish `base`.  Objects use
their field list; arrays and strings expose `length`; all other reads yield
`undefined`.  (Access on `null`/`undefined` throws and is modelled separately
at the call sites that can encounter it.  JavaScript additionally exposes
numeric index keys on arrays and strings; the engine only ever reads the fixed
normalization field names and shape markers, none of which are numeric, so
index reads are omitted and read as `undefined`.) -/
def jfield : JValue → String → JValue
  | .obj fields, key => jlookup fields key
  | .arr elems, key => if key == "length" then .num elems.length else .undefined
  | .str s, key => if key == "length" then .num s.length else .undefined
  | _, _ => .undefined

/-- JavaScript `Object.entries` for non-nullish arguments: objects yield their
field list, arrays and strings yield index-keyed entries, primitives yield
nothing.  (`Object.entries(null)` throws; callers guard with truthiness.) -/
def entriesOf : JValue → List (String × JValue)
  | .obj fields => fields
  | .arr elems => elems.enum.map (fun p => (toString p.1, p.2))
  | .str s => s.toList.enum.map (fun p => (toString p.1, .str (String.singleton p.2)))
  | _ => []

mutual

/-- Embedding of `deepEqual` (hog-watcher.ts lines 184 to 206), following the
source's branch order: the `a === b` shortcut, the `a == null || b == null`
test, the `typeof` mismatch test, the primitive case, then arrays (equal length
and pointwise recursion) and finally objects (equal key counts, then for each
key of `a` a recursive comparison of `a[key]` with `b[key]`, a missing key
reading as `undefined`). -/
def deepEqual (a b : JValue) : Bool :=
  if jsStrictEq a b then true
  else if isNullish a || isNullish b then jsStrictEq a b
  else if typeOf a != typeOf b then false
  else if typeOf a != "object" then jsStrictEq a b
  else match a, b with
    | .arr xs, .arr ys => xs.length == ys.length && deepEqualArr xs ys
    | .arr _, _ => false
    | _, .arr _ => false
    | .obj xs, .obj ys => xs.length == ys.length && deepEqualFields xs ys
    | _, _ => false

/-- Pointwise recursion of `deepEqual` over two arrays; only reached under the
source's equal-length guard (`a.every((val, index) => deepEqual(val, b[index]))`). -/
def deepEqualArr : List JValue → List JValue → Bool
  | [], [] => true
  | x :: xs, y :: ys => deepEqual x y && deepEqualArr xs ys
  | _, _ => false

/-- Recursion of `deepEqual` over the keys of the first object
(`keysA.every(key => deepEqual(a[key], b[key]))`). -/
def deepEqualFields : List (String × JValue) → List (String × JValue) → Bool
  | [], _ => true
  | (k, v) :: rest, ys => deepEqual v (jlookup ys k) && deepEqualFields rest ys

end

/-- Embedding of `matchesProperties` (hog-watcher.ts lines 158 to 179): a falsy
or empty `expected` always matches; then a falsy `actual` never does; otherwise
every entry of `expected` must compare `deepEqual` against the corresponding
property read of `actual` (a missing key reading as `undefined`). -/
def matchesProperties (actual expected : JValue) : Bool :=
  if !(truthy expected) || (entriesOf expected).length == 0 then true
  else if !(truthy actual) then false
  else (entriesOf expected).all (fun p => deepEqual (jfield actual p.1) p.2)

/-- Canonical captured event (symbols.ts `CapturedEvent`): the four normalized
fields plus the unrecognized top-level fields carried through verbatim.  In the
source the extra fields are spread onto the same record; they can never collide
with the four canonical names because those names are filtered out. -/
structure CapturedEvent where
  event : JValue
  properties : JValue
  timestamp : JValue
  distinct_id : JValue
  extra : List (String × JValue)

/-- Field names consumed by normalization (hog-watcher.ts line 147). -/
def normalizedKeys : List String :=
  ["event", "e", "properties", "p", "timestamp", "ts", "distinct_id", "d"]

/-- Embedding of `normalizeEvent` (hog-watcher.ts lines 138 to 153).  `Date.now()`
is passed in as `now`.  Property access on `null`/`undefined` throws in
JavaScript, modelled as `none`; the throw is caught by the `try`/`catch` of
`extractEventsFromRequest`. -/
def normalizeEvent (now : Int) (rawEvent : JValue) : Option CapturedEvent :=
  if isNullish rawEvent then none
  else some {
    event := if truthy (jfield rawEvent "event") then jfield rawEvent "event"
             else if truthy (jfield rawEvent "e") then jfield rawEvent "e"
             else .str "unknown"
    properties := if truthy (jfield rawEvent "properties") then jfield rawEvent "properties"
                  else if truthy (jfield rawEvent "p") then jfield rawEvent "p"
                  else .obj []
    timestamp := if truthy (jfield rawEvent "timestamp") then jfield rawEvent "timestamp"
                 else if truthy (jfield rawEvent "ts") then jfield rawEvent "ts"
                 else .num now
    distinct_id := if truthy (jfield rawEvent "distinct_id") then jfield rawEvent "distinct_id"
                   else jfield rawEvent "d"
    extra := (entriesOf rawEvent).filter (fun p => !(normalizedKeys.contains p.1)) }

/-- Normalization of the elements of a recognized array shape, in order.  A
throwing element (`null`/`undefined`) aborts the loop: the exception propagates
to the `try`/`catch` of `extractEventsFromRequest`, which returns the events
pushed so far, dropping the offending element and everything after it. -/
def normalizeSeq (now : Int) : List JValue → List CapturedEvent
  | [] => []
  | x :: xs =>
    match normalizeEvent now x with
    | none => []
    | some e => e :: normalizeSeq now xs

/-- Array test `Array.isArray`. -/
def isArr : JValue → Bool
  | .arr _ => true
  | _ => false

/-- Elements of an array value (callers guard with `isArr`). -/
def arrElems : JValue → List JValue
  | .arr elems => elems
  | _ => []

/-- Embedding of `extractEventsFromRequest` (hog-watcher.ts lines 81 to 132),
with `request.postDataJSON()` passed in as the parsed `body` and `Date.now()`
as `now`.  A falsy body yields no events; then the prioritized shapes: a
`batch` field holding an array (the truthiness test of `body.batch` is part of
the source condition), the body itself an array, a truthy `event`/`e` marker,
and finally a truthy `data` field whose array elements — or, when not an
array, the `data` value itself — are normalized. -/
def extractEventsFromRequest (now : Int) (body : JValue) : List CapturedEvent :=
  if !(truthy body) then []
  else if truthy (jfield body "batch") && isArr (jfield body "batch") then
    normalizeSeq now (arrElems (jfield body "batch"))
  else if isArr body then
    normalizeSeq now (arrElems body)
  else if truthy (jfield body "event") || truthy (jfield body "e") then
    (normalizeEvent now body).toList
  else if truthy (jfield body "data") then
    if isArr (jfield body "data") then
      normalizeSeq now (arrElems (jfield body "data"))
    else
      (normalizeEvent now (jfield body "data")).toList
  else []

/-- Per-page event storage (fixtures.ts): the array held under the `kHogEvents`
symbol, or `none` when the fixture has not installed it. -/
abbrev PageState := Option (List CapturedEvent)

/-- Fixture initialization `hogPage[kHogEvents] = []` (fixtures.ts line 36). -/
def freshHogState : PageState := some []

/-- Route-handler append `hogPage[kHogEvents].push(...events)` (fixtures.ts
line 53).  The fixture installs the array before any request can arrive, so the
handler only ever runs on an initialized page. -/
def pushEvents (s : PageState) (events : List CapturedEvent) : PageState :=
  s.map (fun acc => acc ++ events)

/-- Embedding of `getCapturedEvents` (fixtures.ts lines 75 to 78):
`hogPage[kHogEvents] || []`. -/
def getCapturedEvents (s : PageState) : List CapturedEvent :=
  s.getD []

/-- Embedding of `clearCapturedEvents` (fixtures.ts lines 80 to 85): reset to an
empty array when the storage exists, otherwise do nothing. -/
def clearCapturedEvents (s : PageState) : PageState :=
  s.map (fun _ => [])

/-- Matcher polling configuration (matchers.ts `MatcherConfig`): both fields
optional, merged over the defaults `timeout: 2000`, `pollInterval: 100` by
`{...DEFAULT_CONFIG, ...config}`. -/
structure MatcherConfig where
  timeout : Option Int := none
  pollInterval : Option Int := none

/-- Timeout after the spread-merge with `DEFAULT_CONFIG`. -/
def resolveTimeout (c : MatcherConfig) : Int :=
  c.timeout.getD 2000

/-- Poll interval after the spread-merge with `DEFAULT_CONFIG`. -/
def resolvePollInterval (c : MatcherConfig) : Int :=
  c.pollInterval.getD 100

/-- Environment seen by a matcher: the page's event storage as a function of
the elapsed time in milliseconds since the matcher call (the host's cooperative
scheduling interleaves route-handler appends with the matcher's polls, so the
storage the matcher reads depends only on when it reads). -/
abbrev HogEnv := Int → PageState

/-- Events the matcher reads at elapsed time `t`: `hogPage[kHogEvents] || []`
(matchers.ts line 61). -/
def eventsAt (env : HogEnv) (t : Int) : List CapturedEvent :=
  getCapturedEvents (env t)

/-- Scan of one snapshot (matchers.ts lines 63 to 67): the first event whose
`event` field is strictly equal to the queried name and whose properties
satisfy `matchesProperties`. -/
def findMatch (events : List CapturedEvent) (eventName : String) (expectedProperties : JValue) :
    Option CapturedEvent :=
  events.find? (fun e =>
    jsStrictEq e.event (.str eventName) && matchesProperties e.properties expectedProperties)

/-- Poll loop of `toHaveFiredEvent` (matchers.ts lines 60 to 77), idealized so
that the loop body is instantaneous and each `setTimeout` sleep advances the
elapsed time by exactly `pollInterval`.  Returns the found event (if any) and
the elapsed time at loop exit.  `fuel` bounds the number of iterations; the
caller supplies enough fuel for every positive `pollInterval` (for a
non-positive `pollInterval` the idealized loop would spin forever at the same
instant, where the real loop's exit depends on wall-clock drift that the model
does not represent). -/
def pollLoop (env : HogEnv) (eventName : String) (expectedProperties : JValue)
    (timeout pollInterval : Int) : Nat → Int → Option CapturedEvent × Int
  | 0, t => (none, t)
  | fuel + 1, t =>
    if t < timeout then
      match findMatch (eventsAt env t) eventName expectedProperties with
      | some e => (some e, t)
      | none => pollLoop env eventName expectedProperties timeout pollInterval fuel (t + pollInterval)
    else (none, t)

/-- Iteration bound for `pollLoop`: with a positive `pollInterval` the elapsed
time grows by `pollInterval` each iteration, so `timeout / pollInterval + 1`
iterations always reach the deadline. -/
def iterFuel (timeout pollInterval : Int) : Nat :=
  timeout.toNat / (max pollInterval 1).toNat + 1

/-- Structured rendering of the failure branch of the `message` closure
(matchers.ts lines 96 to 111): no events at all (with the capture-pipeline
hints), or the name matched but properties did not (listing each such event's
properties and the expected set), or the name matched nothing (listing every
captured event name, in capture order). -/
inductive FailReason where
  | noEvents
  | propsMismatch (actualProps : List JValue) (expected : JValue)
  | nameMismatch (names : List JValue)

/-- Structured rendering of the `message` closure (matchers.ts lines 81 to 115):
the pass branch is the inverted-framing text used by `notToHaveFiredEvent`, the
fail branch carries the waited timeout, the total captured count and the
`FailReason`. -/
inductive DiagMessage where
  | firedUnexpectedly (eventName : String) (expected : JValue)
  | notFired (eventName : String) (expected : JValue) (timeoutMs : Int)
      (totalCaptured : Nat) (reason : FailReason)

/-- Failure-branch selection of the `message` closure (matchers.ts lines 97 to
111): zero events, else events sharing the queried name, else the captured
names. -/
def failReason (eventName : String) (expected : JValue) (events : List CapturedEvent) :
    FailReason :=
  let matchingNameEvents := events.filter (fun e => jsStrictEq e.event (.str eventName))
  if events.length == 0 then .noEvents
  else if matchingNameEvents.length > 0 then
    .propsMismatch (matchingNameEvents.map (fun e => e.properties)) expected
  else .nameMismatch (events.map (fun e => e.event))

/-- The `message` closure of `toHaveFiredEvent`, rendered structurally. -/
def buildMatcherMessage (pass : Bool) (eventName : String) (expected : JValue)
    (timeout : Int) (events : List CapturedEvent) : DiagMessage :=
  if pass then .firedUnexpectedly eventName expected
  else .notFired eventName expected timeout events.length (failReason eventName expected events)

/-- Result of an event matcher: the verdict and the diagnostic message. -/
structure MatcherResult where
  pass : Bool
  message : DiagMessage

/-- Poll outcome of one `toHaveFiredEvent` call: found event and exit time. -/
def pollOutcome (env : HogEnv) (eventName : String) (expectedProperties : JValue)
    (config : MatcherConfig) : Option CapturedEvent × Int :=
  pollLoop env eventName expectedProperties (resolveTimeout config) (resolvePollInterval config)
    (iterFuel (resolveTimeout config) (resolvePollInterval config)) 0

/-- Embedding of `toHaveFiredEvent` (matchers.ts lines 42 to 118): resolve the
config, run the poll loop from elapsed time `0`, pass iff an event was found,
and build the diagnostic from the storage as read at loop exit (the source
builds it lazily in a closure; the snapshot it reads is the storage after the
loop has finished). -/
def toHaveFiredEvent (env : HogEnv) (eventName : String) (expectedProperties : JValue)
    (config : MatcherConfig) : MatcherResult :=
  let r := pollOutcome env eventName expectedProperties config
  { pass := r.1.isSome
    message := buildMatcherMessage r.1.isSome eventName expectedProperties
      (resolveTimeout config) (eventsAt env r.2) }

/-- Snapshot from which the diagnostic of `toHaveFiredEvent` is built: the
storage as read at poll-loop exit. -/
def exitSnapshot (env : HogEnv) (eventName : String) (expectedProperties : JValue)
    (config : MatcherConfig) : List CapturedEvent :=
  eventsAt env (pollOutcome env eventName expectedProperties config).2

/-- Embedding of `notToHaveFiredEvent` (matchers.ts lines 120 to 132): run the
positive matcher to completion, negate its verdict, reuse its message. -/
def notToHaveFiredEvent (env : HogEnv) (eventName : String) (expectedProperties : JValue)
    (config : MatcherConfig) : MatcherResult :=
  let result := toHaveFiredEvent env eventName expectedProperties config
  { pass := !result.pass
    message := result.message }

/-- Structured rendering of the message of `toHaveCapturedEvents` (matchers.ts
lines 144 to 154). -/
inductive CountMessage where
  | unexpectedSome (actualCount : Nat)
  | expectedSome
  | unexpectedExact (count : Int)
  | countMismatch (count : Int) (actualCount : Nat) (names : List JValue)

/-- Result of the count matcher. -/
structure CountResult where
  pass : Bool
  message : CountMessage

/-- Embedding of `toHaveCapturedEvents` (matchers.ts lines 134 to 157).  The
source is synchronous: it reads `hogPage[kHogEvents] || []` once, at call time
`t`, and both the verdict and the message are computed from that single
snapshot (`count === undefined ? actualCount > 0 : actualCount === count`). -/
def toHaveCapturedEvents (env : HogEnv) (t : Int) (count : Option Int) : CountResult :=
  let events := eventsAt env t
  let actualCount := events.length
  let pass := match count with
    | none => decide (0 < actualCount)
    | some c => (actualCount : Int) == c
  { pass := pass
    message := match count with
      | none => if pass then .unexpectedSome actualCount else .expectedSome
      | some c =>
          if pass then .unexpectedExact c
          else .countMismatch c actualCount (events.map (fun e => e.event)) }

/-- Primitive JavaScript value in the reference-semantics model used to analyse
`deepEqual` on cyclic inputs. -/
inductive HPrim where
  | null
  | undefined
  | bool (b : Bool)
  | num (n : Int)
  | str (s : String)

/-- JavaScript value under reference semantics: a primitive, or a reference
into the heap.  This second embedding of the `deepEqual` input domain makes
object identity and cycles expressible, which the tree embedding `JValue`
cannot represent. -/
inductive HVal where
  | prim (p : HPrim)
  | ref (r : Nat)

/-- Heap node: a plain object or an array. -/
inductive HNode where
  | objN (fields : List (String × HVal))
  | arrN (elems : List HVal)

/-- Heap: node `r` is the target of `HVal.ref r`. -/
abbrev Heap := List HNode

/-- Node referenced by `r` (concrete heaps in this development have no dangling
references; a dangling one reads as an empty object). -/
def nodeOf (h : Heap) (r : Nat) : HNode :=
  (h.get? r).getD (.objN [])

/-- Strict equality `===` under reference semantics: primitives by value,
references by identity. -/
def strictEqH : HVal → HVal → Bool
  | .prim .null, .prim .null => true
  | .prim .undefined, .prim .undefined => true
  | .prim (.bool x), .prim (.bool y) => x == y
  | .prim (.num x), .prim (.num y) => x == y
  | .prim (.str x), .prim (.str y) => x == y
  | .ref r, .ref s => r == s
  | _, _ => false

/-- Loose test `x == null` under reference semantics. -/
def nullishH : HVal → Bool
  | .prim .null => true
  | .prim .undefined => true
  | _ => false

/-- The `typeof` operator under reference semantics. -/
def typeofH : HVal → String
  | .prim .null => "object"
  | .prim .undefined => "undefined"
  | .prim (.bool _) => "boolean"
  | .prim (.num _) => "number"
  | .prim (.str _) => "string"
  | .ref _ => "object"

/-- Field read on an object node; a missing key reads as `undefined`. -/
def hlookup : List (String × HVal) → String → HVal
  | [], _ => .prim .undefined
  | (k, v) :: rest, key => if k == key then v else hlookup rest key

mutual

/-- The `deepEqual` source (hog-watcher.ts lines 184 to 206) re-embedded under
reference semantics, branch for branch, with an explicit fuel parameter
bounding the number of recursive steps: `none` means the recursion completes
within no bound at all, which is exactly the behaviour that overflows the call
stack (a thrown `RangeError`) in JavaScript.  Any comparison that terminates
in JavaScript returns `some` of its verdict for every sufficiently large
fuel. -/
def deepEqualH (h : Heap) : Nat → HVal → HVal → Option Bool
  | 0, _, _ => none
  | fuel + 1, a, b =>
    if strictEqH a b then some true
    else if nullishH a || nullishH b then some (strictEqH a b)
    else if typeofH a != typeofH b then some false
    else if typeofH a != "object" then some (strictEqH a b)
    else match a, b with
      | .ref ra, .ref rb =>
        match nodeOf h ra, nodeOf h rb with
        | .arrN xs, .arrN ys =>
            if xs.length != ys.length then some false else deepEqualHArr h fuel xs ys
        | .arrN _, _ => some false
        | _, .arrN _ => some false
        | .objN xs, .objN ys =>
            if xs.length != ys.length then some false else deepEqualHFields h fuel xs ys
      | _, _ => some false

/-- Pointwise array recursion of `deepEqualH` under the equal-length guard
(`a.every((val, index) => deepEqual(val, b[index]))`). -/
def deepEqualHArr (h : Heap) : Nat → List HVal → List HVal → Option Bool
  | 0, _, _ => none
  | _ + 1, [], [] => some true
  | fuel + 1, x :: xs, y :: ys =>
    match deepEqualH h fuel x y with
    | some true => deepEqualHArr h fuel xs ys
    | some false => some false
    | none => none
  | _ + 1, _, _ => some false

/-- Key recursion of `deepEqualH` over the first object's fields
(`keysA.every(key => deepEqual(a[key], b[key]))`). -/
def deepEqualHFields (h : Heap) : Nat → List (String × HVal) → List (String × HVal) → Option Bool
  | 0, _, _ => none
  | _ + 1, [], _ => some true
  | fuel + 1, (k, v) :: rest, ys =>
    match deepEqualH h fuel v (hlookup ys k) with
    | some true => deepEqualHFields h fuel rest ys
    | some false => some false
    | none => none

end

/-- Heap holding two distinct self-referential objects, the JavaScript
`const a = {}; a.self = a; const b = {}; b.self = b;`. -/
def cycHeap : Heap :=
  [.objN [("self", .ref 0)], .objN [("self", .ref 1)]]

/-- The `deepEqual` comparison against `undefined` on the left (a missing key
read) succeeds only when the expected value is itself `undefined`. -/
theorem deepEqual_undef_left (v : JValue) (h : v ≠ .undefined) : deepEqual .undefined v = false := by
  cases v <;> first | exact absurd rfl h | rfl

/-- One entry of the `matchesProperties` loop succeeds exactly when the key is
present in `actual` with a `deepEqual` value, provided the expected value is
not the JavaScript `undefined` (which is outside the property-value grammar). -/
theorem matches_entry (a : List (String × JValue)) (k : String) (v : JValue)
    (hv : v ≠ .undefined) :
    deepEqual (jfield (.obj a) k) v = true
      ↔ ∃ w, firstVal a k = some w ∧ deepEqual w v = true := by
  have hj : jfield (.obj a) k = (firstVal a k).getD .undefined := rfl
  rw [hj]
  cases h : firstVal a k with
  | none => simp [deepEqual_undef_left v hv]
  | some w => simp

/-- C1.  For every actual property mapping and every expected property mapping
(values drawn from the spec's property grammar, which has no `undefined`),
`matchesProperties` returns `true` when `expected` is absent or empty, and
otherwise returns `true` iff every key of `expected` is present in `actual`
with a deeply-equal value; extra keys of `actual` are ignored (they are never
inspected by the loop, as the subset form of the equivalence shows). -/
theorem C1_property_matcher_subset (actual expected : List (String × JValue))
    (h : ∀ p ∈ expected, p.2 ≠ JValue.undefined) :
    matchesProperties (.obj actual) .undefined = true
  ∧ matchesProperties (.obj actual) (.obj []) = true
  ∧ (matchesProperties (.obj actual) (.obj expected) = true ↔
      ∀ p ∈ expected, ∃ w, firstVal actual p.1 = some w ∧ deepEqual w p.2 = true) := by
  refine ⟨rfl, rfl, ?_⟩
  cases expected with
  | nil => exact ⟨fun _ q hq => absurd hq (List.not_mem_nil q), fun _ => rfl⟩
  | cons p ps =>
      have hunf : matchesProperties (.obj actual) (.obj (p :: ps))
          = (p :: ps).all (fun q => deepEqual (jfield (.obj actual) q.1) q.2) := rfl
      rw [hunf, List.all_eq_true]
      constructor
      · intro hall q hq
        exact (matches_entry actual q.1 q.2 (h q hq)).mp (hall q hq)
      · intro hall q hq
        exact (matches_entry actual q.1 q.2 (h q hq)).mpr (hall q hq)

/-- Witness for C1 at a concrete subset-matching pair. -/
theorem C1_witness :
    matchesProperties (.obj [("plan", .str "pro"), ("source", .str "web")])
      (.obj [("plan", .str "pro")]) = true :=
  (C1_property_matcher_subset [("plan", .str "pro"), ("source", .str "web")]
      [("plan", .str "pro")] (by intro p hp; rw [List.mem_singleton] at hp; subst hp; simp)).2.2.mpr
    (by intro q hq; rw [List.mem_singleton] at hq; subst hq; exact ⟨.str "pro", rfl, rfl⟩)

/-- Concrete batch payload of the C2 round-trip scenario. -/
def batchBodyC2 : JValue :=
  .obj [("batch", .arr [.obj [("event", .str "a"), ("properties", .obj [("x", .num 1)])],
                        .obj [("event", .str "b")]])]

/-- C2.  The batch payload with events `a` (properties `x: 1`) and `b` (no
properties field) normalizes to exactly two events, named `"a"` with
properties `x: 1` and `"b"` with empty properties, in that order, for every
capture instant `now`. -/
theorem C2_batch_round_trip (now : Int) :
    (extractEventsFromRequest now batchBodyC2).map (fun e => (e.event, e.properties))
        = [(.str "a", .obj [("x", .num 1)]), (.str "b", .obj [])]
  ∧ (extractEventsFromRequest now batchBodyC2).length = 2 :=
  ⟨rfl, rfl⟩

/-- Appending over an initialized log accumulates in order. -/
theorem foldl_pushEvents (batches : List (List CapturedEvent)) (acc : List CapturedEvent) :
    batches.foldl pushEvents (some acc) = some (acc ++ batches.flatten) := by
  induction batches generalizing acc with
  | nil => simp
  | cons b bs ih => simp [pushEvents, ih, List.append_assoc]

/-- C3.  For every sequence of append operations on a freshly initialized event
log, reading the captured events returns exactly their concatenation in append
order, and reading after a clear returns the empty sequence. -/
theorem C3_event_log_order (batches : List (List CapturedEvent)) (s : PageState) :
    getCapturedEvents (batches.foldl pushEvents freshHogState) = batches.flatten
  ∧ getCapturedEvents (clearCapturedEvents s) = [] := by
  constructor
  · rw [show freshHogState = some [] from rfl, foldl_pushEvents]
    simp [getCapturedEvents]
  · cases s <;> rfl

/-- Payload whose `data` field is a non-array, non-batch mapping. -/
def dataBodyC4 : JValue := .obj [("data", .obj [("x", .num 1)])]

/-- C4 counterexample.  A payload with no batch array, no `event`/`e` marker and
a non-array `data` value yields ONE event — `normalizeEvent` is applied to the
`data` value itself — not the empty sequence the claim derives from rule-1/2
recursion. -/
theorem C4_counterexample :
    extractEventsFromRequest 0 dataBodyC4
        = [{ event := .str "unknown", properties := .obj [], timestamp := .num 0,
             distinct_id := .undefined, extra := [("x", .num 1)] }]
  ∧ (extractEventsFromRequest 0 dataBodyC4).length = 1 :=
  ⟨rfl, rfl⟩

/-- A truthy value is not `null`/`undefined`. -/
theorem truthy_not_nullish (v : JValue) (h : truthy v = true) : isNullish v = false := by
  cases v <;> first | rfl | exact absurd h (by decide)

/-- C4 amended.  For every payload object with no batch array and no truthy
`event`/`e` marker: a falsy or absent `data` field yields the empty sequence;
an array `data` field has each element normalized in order; and any other
truthy `data` value is normalized as a single raw event, yielding exactly one
event (no recursion into the batch/array rules takes place). -/
theorem C4_data_branch (now : Int) (b : List (String × JValue))
    (hbatch : (truthy (jfield (.obj b) "batch") && isArr (jfield (.obj b) "batch")) = false)
    (hev : truthy (jfield (.obj b) "event") = false)
    (he : truthy (jfield (.obj b) "e") = false) :
    (truthy (jfield (.obj b) "data") = false → extractEventsFromRequest now (.obj b) = [])
  ∧ (∀ l, jfield (.obj b) "data" = .arr l →
      extractEventsFromRequest now (.obj b) = normalizeSeq now l)
  ∧ (truthy (jfield (.obj b) "data") = true → isArr (jfield (.obj b) "data") = false →
      (extractEventsFromRequest now (.obj b)).length = 1) := by
  have hunf : extractEventsFromRequest now (.obj b)
      = (if truthy (jfield (.obj b) "batch") && isArr (jfield (.obj b) "batch") then
          normalizeSeq now (arrElems (jfield (.obj b) "batch"))
        else if isArr (.obj b) then
          normalizeSeq now (arrElems (.obj b))
        else if truthy (jfield (.obj b) "event") || truthy (jfield (.obj b) "e") then
          (normalizeEvent now (.obj b)).toList
        else if truthy (jfield (.obj b) "data") then
          if isArr (jfield (.obj b) "data") then
            normalizeSeq now (arrElems (jfield (.obj b) "data"))
          else
            (normalizeEvent now (jfield (.obj b) "data")).toList
        else []) := rfl
  have h2 : extractEventsFromRequest now (.obj b)
      = (if truthy (jfield (.obj b) "data") then
          if isArr (jfield (.obj b) "data") then
            normalizeSeq now (arrElems (jfield (.obj b) "data"))
          else
            (normalizeEvent now (jfield (.obj b) "data")).toList
        else []) := by
    rw [hunf, hbatch, hev, he]
    rfl
  refine ⟨fun hd => by rw [h2, hd]; rfl, fun l hl => by rw [h2, hl]; rfl, fun hd hna => ?_⟩
  rw [h2, hd, hna]
  have hnn : isNullish (jfield (.obj b) "data") = false := truthy_not_nullish _ hd
  show ((normalizeEvent now (jfield (.obj b) "data")).toList).length = 1
  unfold normalizeEvent
  rw [hnn]
  rfl

/-- Witness for C4's amended claim: a truthy non-array `data` value yields
exactly one event. -/
theorem C4_witness :
    (extractEventsFromRequest 0 (.obj [("data", .bool true)])).length = 1 :=
  (C4_data_branch 0 [("data", .bool true)] rfl rfl rfl).2.2 rfl rfl

/-- The canonical event `normalizeEvent` builds for an object element (object
property access never throws, so normalization always succeeds on objects). -/
def normalizeEventObj (now : Int) (fields : List (String × JValue)) : CapturedEvent :=
  { event := if truthy (jlookup fields "event") then jlookup fields "event"
             else if truthy (jlookup fields "e") then jlookup fields "e"
             else .str "unknown"
    properties := if truthy (jlookup fields "properties") then jlookup fields "properties"
                  else if truthy (jlookup fields "p") then jlookup fields "p"
                  else .obj []
    timestamp := if truthy (jlookup fields "timestamp") then jlookup fields "timestamp"
                 else if truthy (jlookup fields "ts") then jlookup fields "ts"
                 else .num now
    distinct_id := if truthy (jlookup fields "distinct_id") then jlookup fields "distinct_id"
                   else jlookup fields "d"
    extra := fields.filter (fun p => !(normalizedKeys.contains p.1)) }

/-- On an object element, `normalizeEvent` succeeds and yields the canonical
record. -/
theorem normalizeEvent_obj (now : Int) (fields : List (String × JValue)) :
    normalizeEvent now (.obj fields) = some (normalizeEventObj now fields) := rfl

/-- Normalizing a list of object elements drops nothing: one event per element,
in order. -/
theorem normalizeSeq_map_obj (now : Int) (elems : List (List (String × JValue))) :
    normalizeSeq now (elems.map .obj) = elems.map (normalizeEventObj now) := by
  induction elems with
  | nil => rfl
  | cons f fs ih =>
      show normalizeSeq now (.obj f :: fs.map .obj) = normalizeEventObj now f :: fs.map (normalizeEventObj now)
      unfold normalizeSeq
      rw [normalizeEvent_obj, ih]

/-- C9.  Every object element reaching normalization — from a batch field, a
top-level array, a single marked event object, or a `data` field (array or
single) — is mapped to exactly one event (never dropped), and the resulting
event's name is uniformly the element's `event` field if truthy, else its `e`
field if truthy, else the sentinel `"unknown"`. -/
theorem C9_uniform_name_policy (now : Int) (elems : List (List (String × JValue)))
    (b : List (String × JValue)) :
    (∀ f : List (String × JValue), (normalizeEventObj now f).event
        = (if truthy (jfield (.obj f) "event") then jfield (.obj f) "event"
           else if truthy (jfield (.obj f) "e") then jfield (.obj f) "e"
           else .str "unknown"))
  ∧ extractEventsFromRequest now (.obj [("batch", .arr (elems.map .obj))])
      = elems.map (normalizeEventObj now)
  ∧ extractEventsFromRequest now (.arr (elems.map .obj))
      = elems.map (normalizeEventObj now)
  ∧ ((truthy (jfield (.obj b) "batch") && isArr (jfield (.obj b) "batch")) = false →
      (truthy (jfield (.obj b) "event") || truthy (jfield (.obj b) "e")) = true →
      extractEventsFromRequest now (.obj b) = [normalizeEventObj now b])
  ∧ extractEventsFromRequest now (.obj [("data", .arr (elems.map .obj))])
      = elems.map (normalizeEventObj now)
  ∧ (∀ f : List (String × JValue),
      extractEventsFromRequest now (.obj [("data", .obj f)]) = [normalizeEventObj now f]) := by
  refine ⟨fun f => rfl, ?_, ?_, ?_, ?_, fun f => rfl⟩
  · show normalizeSeq now (elems.map .obj) = elems.map (normalizeEventObj now)
    exact normalizeSeq_map_obj now elems
  · show normalizeSeq now (elems.map .obj) = elems.map (normalizeEventObj now)
    exact normalizeSeq_map_obj now elems
  · intro hbatch hmark
    have hunf : extractEventsFromRequest now (.obj b)
        = (if truthy (jfield (.obj b) "batch") && isArr (jfield (.obj b) "batch") then
            normalizeSeq now (arrElems (jfield (.obj b) "batch"))
          else if isArr (.obj b) then
            normalizeSeq now (arrElems (.obj b))
          else if truthy (jfield (.obj b) "event") || truthy (jfield (.obj b) "e") then
            (normalizeEvent now (.obj b)).toList
          else if truthy (jfield (.obj b) "data") then
            if isArr (jfield (.obj b) "data") then
              normalizeSeq now (arrElems (jfield (.obj b) "data"))
            else
              (normalizeEvent now (jfield (.obj b) "data")).toList
          else []) := rfl
    rw [hunf, hbatch, hmark]
    rfl
  · show normalizeSeq now (elems.map .obj) = elems.map (normalizeEventObj now)
    exact normalizeSeq_map_obj now elems

/-- Witness for C9 at a concrete single-event object using the `e` shorthand. -/
theorem C9_witness :
    extractEventsFromRequest 0 (.obj [("e", .str "shorthand")])
      = [normalizeEventObj 0 [("e", .str "shorthand")]] :=
  (C9_uniform_name_policy 0 [] [("e", .str "shorthand")]).2.2.2.1 rfl rfl

/-- The iteration bound, exposed in successor form: the loop condition of
`pollLoop` is examined at least once. -/
theorem iterFuel_succ (timeout pollInterval : Int) :
    iterFuel timeout pollInterval
      = timeout.toNat / (max pollInterval 1).toNat + 1 := rfl

/-- One unfolding step of the poll loop. -/
theorem pollLoop_succ (env : HogEnv) (eventName : String) (props : JValue)
    (timeout pollInterval : Int) (fuel : Nat) (t : Int) :
    pollLoop env eventName props timeout pollInterval (fuel + 1) t
      = (if t < timeout then
          match findMatch (eventsAt env t) eventName props with
          | some e => (some e, t)
          | none => pollLoop env eventName props timeout pollInterval fuel (t + pollInterval)
        else (none, t)) := rfl

/-- With a positive timeout, a match already present at the first snapshot is
found at elapsed time zero. -/
theorem pollOutcome_immediate (env : HogEnv) (eventName : String) (props : JValue)
    (config : MatcherConfig) (ht : 0 < resolveTimeout config)
    (hf : (findMatch (eventsAt env 0) eventName props).isSome = true) :
    (pollOutcome env eventName props config).1.isSome = true := by
  obtain ⟨e, he⟩ := Option.isSome_iff_exists.mp hf
  unfold pollOutcome
  rw [iterFuel_succ, pollLoop_succ, if_pos ht, he]
  rfl

/-- C5.  For every environment, event name, expected properties and timing
configuration, the negative assertion's verdict is exactly the boolean
inversion of the positive assertion's verdict on the same arguments, and its
diagnostic message is the positive assertion's message, reused unchanged.  In
particular, with a positive timeout (as in every valid configuration,
defaults included), if the event log already contains a matching event with
the target name when the assertion starts, the negative assertion fails. -/
theorem C5_negative_is_inversion (env : HogEnv) (eventName : String) (props : JValue)
    (config : MatcherConfig) :
    (notToHaveFiredEvent env eventName props config).pass
        = !(toHaveFiredEvent env eventName props config).pass
  ∧ (notToHaveFiredEvent env eventName props config).message
        = (toHaveFiredEvent env eventName props config).message
  ∧ (0 < resolveTimeout config →
      (findMatch (eventsAt env 0) eventName props).isSome = true →
      (notToHaveFiredEvent env eventName props config).pass = false) := by
  refine ⟨rfl, rfl, fun ht hf => ?_⟩
  have hpos : (toHaveFiredEvent env eventName props config).pass = true := by
    show (pollOutcome env eventName props config).1.isSome = true
    exact pollOutcome_immediate env eventName props config ht hf
  have hneg : (notToHaveFiredEvent env eventName props config).pass
      = !(toHaveFiredEvent env eventName props config).pass := rfl
  rw [hneg, hpos]
  rfl

/-- Environment of the C5 witness: the log already holds `error_occurred`. -/
def envC5 : HogEnv :=
  fun _ => some [{ event := .str "error_occurred", properties := .obj [],
                   timestamp := .num 0, distinct_id := .undefined, extra := [] }]

/-- Witness for C5: with the default configuration and `error_occurred` in the
log, the negative assertion fails. -/
theorem C5_witness :
    (notToHaveFiredEvent envC5 "error_occurred" .undefined {}).pass = false :=
  (C5_negative_is_inversion envC5 "error_occurred" .undefined {}).2.2 (by decide) rfl

/-- Environment of the C6 counterexample: the log already holds `signup`. -/
def envC6 : HogEnv :=
  fun _ => some [{ event := .str "signup", properties := .obj [],
                   timestamp := .num 0, distinct_id := .undefined, extra := [] }]

/-- C6 counterexample.  Passing the invalid configuration `timeout: -5` to the
assertion surfaces no usage error at all: the call returns an ordinary failing
assertion result — `pass: false` with the standard not-fired diagnostic built
by the normal failure path (here its property-mismatch branch, since `signup`
is in the log) — indistinguishable in kind from any other assertion failure. -/
theorem C6_counterexample :
    toHaveFiredEvent envC6 "signup" .undefined { timeout := some (-5) }
      = { pass := false
          message := .notFired "signup" .undefined (-5) 1 (.propsMismatch [.obj []] .undefined) } := rfl

/-- C6 amended.  The assertion performs no configuration validation: for every
configuration whose resolved timeout is not positive (for example a negative
timeout), the poll loop exits before its first snapshot wait, and the call
returns the ordinary failing assertion result — `pass: false` with the
standard diagnostic built from the storage at elapsed time zero — rather than
a usage error distinct from an assertion failure. -/
theorem C6_no_validation (env : HogEnv) (eventName : String) (props : JValue)
    (config : MatcherConfig) (h : resolveTimeout config ≤ 0) :
    toHaveFiredEvent env eventName props config
      = { pass := false
          message := buildMatcherMessage false eventName props (resolveTimeout config)
              (eventsAt env 0) } := by
  have hloop : pollOutcome env eventName props config = (none, 0) := by
    unfold pollOutcome
    rw [iterFuel_succ, pollLoop_succ, if_neg (by omega)]
  show ({ pass := (pollOutcome env eventName props config).1.isSome
          message := buildMatcherMessage (pollOutcome env eventName props config).1.isSome
            eventName props (resolveTimeout config)
            (eventsAt env (pollOutcome env eventName props config).2) } : MatcherResult)
      = _
  rw [hloop]
  rfl

/-- Witness for C6's amended claim at a concrete invalid configuration. -/
theorem C6_witness :
    toHaveFiredEvent (fun _ => freshHogState) "a" .undefined { timeout := some (-1) }
      = { pass := false
          message := buildMatcherMessage false "a" .undefined
              (resolveTimeout { timeout := some (-1) })
              (eventsAt (fun _ => freshHogState) 0) } :=
  C6_no_validation (fun _ => freshHogState) "a" .undefined { timeout := some (-1) } (by decide)

/-- Environment of the C7 counterexample: two captured events, both named
`x`. -/
def envC7 : HogEnv :=
  fun _ => some [{ event := .str "x", properties := .obj [], timestamp := .num 0,
                   distinct_id := .undefined, extra := [] },
                 { event := .str "x", properties := .obj [], timestamp := .num 1,
                   distinct_id := .undefined, extra := [] }]

/-- C7 counterexample.  With two captured events both named `x` and no event
named `y`, the failing assertion's diagnostic lists the captured event names as
`[x, x]` — every name in capture order, duplicates included — which is not the
set of distinct captured event names the claim describes (the listed name
sequence is not duplicate-free). -/
theorem C7_counterexample :
    (toHaveFiredEvent envC7 "y" .undefined {}).message
        = .notFired "y" .undefined 2000 2 (.nameMismatch [.str "x", .str "x"])
  ∧ ¬ ([JValue.str "x", JValue.str "x"].Nodup) := by
  refine ⟨rfl, fun h => ?_⟩
  exact (List.nodup_cons.mp h).1 (List.mem_cons_self _ _)

/-- C7 amended.  Every failed `toHaveFiredEvent` call reports, from the
snapshot read at poll-loop exit: the total number of captured events; the
capture-pipeline-misconfiguration hint when that total is zero; otherwise,
when some captured events share the target name, each such event's properties
alongside the expected properties; otherwise the list of all captured event
names in capture order (with duplicates, not deduplicated into a set). -/
theorem C7_failure_diagnostic (env : HogEnv) (eventName : String) (props : JValue)
    (config : MatcherConfig)
    (hfail : (toHaveFiredEvent env eventName props config).pass = false) :
    (toHaveFiredEvent env eventName props config).message
        = .notFired eventName props (resolveTimeout config)
            (exitSnapshot env eventName props config).length
            (failReason eventName props (exitSnapshot env eventName props config))
  ∧ ((exitSnapshot env eventName props config).length = 0 →
      failReason eventName props (exitSnapshot env eventName props config) = .noEvents)
  ∧ (0 < ((exitSnapshot env eventName props config).filter
        (fun e => jsStrictEq e.event (.str eventName))).length →
      failReason eventName props (exitSnapshot env eventName props config)
        = .propsMismatch (((exitSnapshot env eventName props config).filter
            (fun e => jsStrictEq e.event (.str eventName))).map (fun e => e.properties)) props)
  ∧ (0 < (exitSnapshot env eventName props config).length →
      ((exitSnapshot env eventName props config).filter
        (fun e => jsStrictEq e.event (.str eventName))).length = 0 →
      failReason eventName props (exitSnapshot env eventName props config)
        = .nameMismatch ((exitSnapshot env eventName props config).map (fun e => e.event))) := by
  refine ⟨?_, fun h0 => ?_, fun hm => ?_, fun h0 hm => ?_⟩
  · have hmsg : (toHaveFiredEvent env eventName props config).message
        = buildMatcherMessage (toHaveFiredEvent env eventName props config).pass
            eventName props (resolveTimeout config)
            (exitSnapshot env eventName props config) := rfl
    rw [hmsg, hfail]
    rfl
  · simp only [failReason]
    rw [if_pos (by simp [h0])]
  · have hfle := List.length_filter_le
      (fun e => jsStrictEq e.event (.str eventName)) (exitSnapshot env eventName props config)
    simp only [failReason]
    rw [if_neg (by simp only [beq_iff_eq]; omega), if_pos hm]
  · simp only [failReason]
    rw [if_neg (by simp only [beq_iff_eq]; omega), if_neg (by omega)]

/-- Witness for C7's amended claim: a failing call on an empty log reports the
diagnostic built from the exit snapshot. -/
theorem C7_witness :
    (toHaveFiredEvent (fun _ => freshHogState) "x" .undefined {}).message
        = .notFired "x" .undefined (resolveTimeout {})
            (exitSnapshot (fun _ => freshHogState) "x" .undefined {}).length
            (failReason "x" .undefined (exitSnapshot (fun _ => freshHogState) "x" .undefined {})) :=
  (C7_failure_diagnostic (fun _ => freshHogState) "x" .undefined {} rfl).1

/-- C10.  `toHaveCapturedEvents` reads the event log exactly once, at call
time: its verdict is `true` iff the count at that instant is positive (when no
count argument is given) or exactly equals the given count, and the whole
result is determined by the call-instant snapshot alone, so events appended
after the call cannot change it. -/
theorem C10_count_matcher (env env2 : HogEnv) (t : Int) (count : Option Int) :
    ((toHaveCapturedEvents env t count).pass = true ↔
        ((count = none ∧ 0 < (eventsAt env t).length)
          ∨ ∃ c, count = some c ∧ ((eventsAt env t).length : Int) = c))
  ∧ (eventsAt env t = eventsAt env2 t →
      toHaveCapturedEvents env t count = toHaveCapturedEvents env2 t count) := by
  constructor
  · cases count with
    | none => simp [toHaveCapturedEvents]
    | some c => simp [toHaveCapturedEvents]
  · intro h
    simp only [toHaveCapturedEvents, h]

/-- Witness for C10: a log that gains an event after the call instant yields
the same matcher result as one that never does. -/
theorem C10_witness :
    toHaveCapturedEvents (fun _ => freshHogState) 0 none
      = toHaveCapturedEvents
          (fun t => if t ≤ 0 then freshHogState
                    else some [{ event := .str "late", properties := .obj [],
                                 timestamp := .num 9, distinct_id := .undefined, extra := [] }])
          0 none :=
  (C10_count_matcher (fun _ => freshHogState)
      (fun t => if t ≤ 0 then freshHogState
                else some [{ event := .str "late", properties := .obj [],
                             timestamp := .num 9, distinct_id := .undefined, extra := [] }])
      0 none).2 rfl

/-- On the two distinct self-referential objects of `cycHeap`, neither the
comparison nor its single-field recursion completes within any fuel bound. -/
theorem cycHeap_diverges (fuel : Nat) :
    deepEqualH cycHeap fuel (.ref 0) (.ref 1) = none
  ∧ deepEqualHFields cycHeap fuel [("self", .ref 0)] [("self", .ref 1)] = none := by
  induction fuel with
  | zero => exact ⟨rfl, rfl⟩
  | succ n ih =>
      constructor
      · show deepEqualHFields cycHeap n [("self", .ref 0)] [("self", .ref 1)] = none
        exact ih.2
      · show (match deepEqualH cycHeap n (.ref 0) (.ref 1) with
          | some true => deepEqualHFields cycHeap n [] [("self", .ref 1)]
          | some false => some false
          | none => none) = none
        rw [ih.1]

/-- C8 counterexample.  On the cyclic input `a = {}; a.self = a;
b = {}; b.self = b;` the source's comparison does not return a boolean for any
recursion bound whatsoever: it recurses unboundedly (the JavaScript call stack
overflows with a thrown `RangeError`), so the comparison neither returns a
boolean nor avoids throwing on cyclic structures. -/
theorem C8_counterexample :
    (fun fuel => deepEqualH cycHeap fuel (.ref 0) (.ref 1)) = (fun _ => none) :=
  funext (fun fuel => (cycHeap_diverges fuel).1)

/-- C8 amended.  On (acyclic) tree values the comparison is total and treats
operands of differing `typeof` type as unequal rather than erroring; but on a
pair of distinct cyclic objects the recursion exceeds every depth bound (a
stack-overflow throw), so the no-throw guarantee holds only away from cyclic
inputs. -/
theorem C8_type_mismatch_unequal (a b : JValue) (h : typeOf a ≠ typeOf b) :
    deepEqual a b = false := by
  cases a <;> cases b <;> first | exact absurd rfl h | rfl

/-- Witness for C8's amended claim at a number/string pair. -/
theorem C8_witness : deepEqual (.num 1) (.str "one") = false :=
  C8_type_mismatch_unequal (.num 1) (.str "one") (by decide)
